import Mathlib

/-!
# Verification of the nitric CLI orchestration core

A shallow embedding, in Lean 4, of the orchestration core of the nitric
CLI (`pkg/project` build/collection pipelines and the `codeconfig` Api
route registry), together with proofs of the testable properties stated
in the design specification.

The embedding follows the Go source:
* `normalizePath`, `matchingWorkers`, `Api.AddWorker`,
  `Api.AddSecurityDefinition`, `Api.AddSecurity` from the `codeconfig`
  package;
* `Project.BuildServices`, `Project.collectServiceRequirements` and
  `Project.CollectServicesRequirements` from the `project` package.

Go strings are modelled as Lean `String`s (lists of characters); Go maps
with last-write-wins insertion are modelled as functions into `Option`;
Go `error` results are modelled with `Except`/`Option`; the goroutine
structure of `BuildServices` is modelled as a small-step transition
system over an explicit state record.
-/

/-! ## Character and path-segment primitives

`strings.Split(s, "/")` and `strings.Join(parts, "/")` are modelled at
the character-list level.  `strings.ToLower` is modelled per character,
restricted to ASCII (the only case mapping exercised by route paths).
-/

/-- Models Go `strings.ToLower` on a single character (ASCII range):
an upper-case letter `A`–`Z` is shifted by 32 to its lower-case form,
every other character is unchanged. -/
def toLowerChar (c : Char) : Char :=
  if 65 ≤ c.toNat ∧ c.toNat ≤ 90 then Char.ofNat (c.toNat + 32) else c

/-- Prepends a character to the first segment of a split result. -/
def consHead (c : Char) : List (List Char) → List (List Char)
  | [] => [[c]]
  | h :: t => (c :: h) :: t

/-- Models Go `strings.Split(s, "/")`: splits a character list at every
`'/'`; the result is always non-empty, and contains the (possibly
empty) segments between consecutive separators. -/
def splitOnSlash : List Char → List (List Char)
  | [] => [[]]
  | c :: cs =>
    if c = '/' then [] :: splitOnSlash cs
    else consHead c (splitOnSlash cs)

/-- Models Go `strings.Join(parts, "/")`: interleaves `'/'` between the
segments. -/
def joinSlash : List (List Char) → List Char
  | [] => []
  | [s] => s
  | s :: rest => s ++ '/' :: joinSlash rest

/-- Modelled from the spec: `utils.SplitPath` is called by
`normalizePath` but is not among the provided source files; the spec
says the path is "split into segments on the path separator", which is
exactly a split on `'/'`. -/
def SplitPath (path : String) : List (List Char) :=
  splitOnSlash path.data

/-- One iteration of the loop body of `normalizePath` (codeconfig): a
segment with prefix `":"` becomes the canonical token `":param"`, any
other segment is lower-cased. -/
def normalizeSeg (part : List Char) : List Char :=
  if part.head? = some ':' then ":param".data
  else part.map toLowerChar

/-- Embeds `normalizePath` (codeconfig/api.go): split the path on the
separator, canonicalize parameter segments (prefix `":"`), lower-case
the rest, and rejoin with `"/"`. -/
def normalizePath (path : String) : String :=
  ⟨joinSlash ((SplitPath path).map normalizeSeg)⟩

/-! ## The Api route registry (codeconfig) -/

/-- Embeds the fields of `v1.ApiWorker` used by the registry: the route
path pattern and the set of HTTP methods (`GetPath`/`GetMethods`). -/
structure ApiWorker where
  path : String
  methods : List String
deriving DecidableEq, Repr

/-- Opaque stand-in for the external protobuf type
`v1.ApiSecurityDefinition`; its contents are never inspected by the
registry, only stored. -/
structure ApiSecurityDefinition where
  tag : Nat
deriving DecidableEq, Repr

/-- Embeds the `Api` aggregate of the codeconfig package.  The two Go
maps are modelled as functions into `Option` (`none` = key absent); the
worker slice is a list; the parent `FunctionDependencies` (not among
the provided sources) is modelled by the number of non-fatal errors
recorded against it via `AddError`. -/
structure Api where
  securityDefinitions : String → Option ApiSecurityDefinition
  security : String → Option (List String)
  workers : List ApiWorker
  parentErrors : Nat

/-- Embeds `newApi` (codeconfig): empty worker list and empty maps,
attached to a parent with no recorded errors. -/
def newApi : Api :=
  { securityDefinitions := fun _ => none
    security := fun _ => none
    workers := []
    parentErrors := 0 }

/-- Embeds `matchingWorkers` (codeconfig): two workers match iff their
normalized paths are equal and some method occurs in both method
lists. -/
def matchingWorkers (a b : ApiWorker) : Bool :=
  if normalizePath a.path = normalizePath b.path then
    a.methods.any fun aMethod => b.methods.any fun bMethod => aMethod == bMethod
  else false

/-- Embeds `Api.AddWorker` (codeconfig): if some existing worker
matches the new one, record one non-fatal error on the parent and drop
the new worker; otherwise append it. -/
def Api.AddWorker (a : Api) (worker : ApiWorker) : Api :=
  if a.workers.any fun existing => matchingWorkers existing worker then
    { a with parentErrors := a.parentErrors + 1 }
  else
    { a with workers := a.workers ++ [worker] }

/-- Embeds `Api.AddSecurityDefinition` (codeconfig): unconditional map
insert, last write wins. -/
def Api.AddSecurityDefinition (a : Api) (name : String)
    (sd : ApiSecurityDefinition) : Api :=
  { a with securityDefinitions := fun n =>
      if n = name then some sd else a.securityDefinitions n }

/-- Embeds `Api.AddSecurity` (codeconfig): a non-nil scope slice
(`some scopes`) is stored as given; a nil slice (`none`) is stored as
an explicit empty list. -/
def Api.AddSecurity (a : Api) (name : String)
    (scopes : Option (List String)) : Api :=
  match scopes with
  | some s => { a with security := fun n => if n = name then some s else a.security n }
  | none => { a with security := fun n => if n = name then some [] else a.security n }

/-! ## Project, services and requirement collection (pkg/project) -/

/-- Modelled from the spec: the `Service` descriptor type (its
declaration file is not among the provided sources); the spec describes
it as the immutable descriptor { name, source file path, declared type,
start command }. -/
structure Service where
  name : String
  filePath : String
  serviceType : String
  startCmd : String
deriving DecidableEq

/-- `Service.GetFilePath` returns the service's source file path. -/
def Service.GetFilePath (s : Service) : String := s.filePath

/-- Modelled from the spec: the `preview.Feature` enumeration (package
`preview` is not among the provided sources); the collection path only
inspects SQL database support (`sql-databases`). -/
inductive Feature
  | SqlDatabases
  | OtherFeature (name : String)
deriving DecidableEq

/-- Embeds the fields of `Project` (project.go) used by the build and
collection pipelines. -/
structure Project where
  name : String
  preview : List Feature
  services : List Service

/-- Modelled from the spec: `collector.ServiceRequirements` (package
`collector` is not among the provided sources); it is the per-service
RequirementsSet, of which the collection path inspects only the
declared SQL databases. -/
structure ServiceRequirements where
  serviceName : String
  serviceFile : String
  sqlDatabases : List String
deriving DecidableEq

/-- Modelled from the spec: `HasDatabases` holds iff the service
declared SQL/database usage. -/
def ServiceRequirements.HasDatabases (r : ServiceRequirements) : Bool :=
  !r.sqlDatabases.isEmpty

/-- The error message produced at the database preview-feature check of
`Project.collectServiceRequirements` (project.go, the `fmt.Errorf`
whose `%s` is `service.GetFilePath()`). -/
def databaseFeatureErrorMsg (service : Service) : String :=
  "service " ++ service.GetFilePath ++
    " requires a database, but the project does not have the \x27sql-databases\x27 preview feature enabled. Please add sql-databases to the preview field of your nitric.yaml file to enable this feature"

/-- Embeds `Project.collectServiceRequirements` (project.go).  The grpc
server, temp log file and container run are external effects; their
combined outcome is the parameter `runOutcome` — either the error of
the listener / launched process, or the `ServiceRequirements` the
service registered while running.  On a successful run the database
preview-feature precondition is checked exactly as in the source. -/
def Project.collectServiceRequirements (p : Project) (service : Service)
    (runOutcome : Except String ServiceRequirements) :
    Except String ServiceRequirements :=
  match runOutcome with
  | .error e => .error e
  | .ok serviceRequirements =>
    if serviceRequirements.HasDatabases && !(p.preview.contains Feature.SqlDatabases) then
      .error (databaseFeatureErrorMsg service)
    else
      .ok serviceRequirements

/-- The failing sessions' errors (the Go local `serviceErrors` of
`CollectServicesRequirements`). -/
def Project.serviceErrors (p : Project)
    (runOutcome : Service → Except String ServiceRequirements) : List String :=
  p.services.filterMap fun s =>
    match p.collectServiceRequirements s (runOutcome s) with
    | .error e => some e
    | .ok _ => none

/-- The successful sessions' requirement sets (the Go local
`allServiceRequirements`). -/
def Project.allServiceRequirements (p : Project)
    (runOutcome : Service → Except String ServiceRequirements) :
    List ServiceRequirements :=
  p.services.filterMap fun s =>
    (p.collectServiceRequirements s (runOutcome s)).toOption

/-- Embeds `Project.CollectServicesRequirements` (project.go): one
collection session per service; failures and successes are accumulated
in separate lists; if any session failed the whole operation fails with
the joined error list (`errors.Join`) and a nil result, otherwise every
session's requirements are returned.  The unbounded concurrent sessions
are modelled in program order; the properties proved about this
function do not depend on that order. -/
def Project.CollectServicesRequirements (p : Project)
    (runOutcome : Service → Except String ServiceRequirements) :
    Except (List String) (List ServiceRequirements) :=
  if (p.serviceErrors runOutcome).isEmpty then
    .ok (p.allServiceRequirements runOutcome)
  else .error (p.serviceErrors runOutcome)

/-! ## BuildServices (pkg/project): synchronous behaviour -/

/-- The build status constants carried by `ServiceBuildUpdate`
(declared outside the provided sources; per the spec the status is one
of `Building`, `Complete`, `Error`). -/
inductive ServiceBuildStatus
  | Building
  | Complete
  | Error
deriving DecidableEq

/-- Embeds the fields of `ServiceBuildUpdate` used by `BuildServices`:
service name, message, status and the attached error. -/
structure ServiceBuildUpdate where
  serviceName : String
  message : String
  status : ServiceBuildStatus
  err : Option String
deriving DecidableEq

/-- The terminal update `BuildServices` sends for one service, given
the result of `svc.BuildImage` (`none` = success): on failure an
`Error` update with the error attached and the error text as message,
on success a `Complete` update with message "Build Complete". -/
def buildUpdateFor (svc : Service) (buildResult : Option String) :
    ServiceBuildUpdate :=
  match buildResult with
  | some e =>
    { serviceName := svc.name, message := e, status := .Error, err := some e }
  | none =>
    { serviceName := svc.name, message := "Build Complete", status := .Complete,
      err := none }

/-- The synchronous error returned by `BuildServices` when the project
has no services. -/
def noServicesMsg : String :=
  "no services found in project, nothing to build. This may indicate misconfigured `match` patterns in your nitric.yaml file"

/-- Embeds the synchronous behaviour of `Project.BuildServices`
(project.go) together with the terminal update each goroutine sends:
with an empty service list it fails synchronously (nil channel and an
error); otherwise it succeeds and the stream eventually carries, for
each service, the terminal update determined by its `BuildImage`
result.  The interleaving of the stream is modelled separately by
`BuildStep` below. -/
def Project.BuildServices (p : Project) (buildResult : Service → Option String) :
    Except String (List ServiceBuildUpdate) :=
  if p.services.length = 0 then .error noServicesMsg
  else .ok (p.services.map fun svc => buildUpdateFor svc (buildResult svc))

/-! ## The concurrency skeleton of BuildServices

`BuildServices` spawns one goroutine per service.  Goroutine `i`
acquires a permit by sending onto the buffered channel
`maxConcurrentBuilds` (capacity `min(NumCPU, GOMAXPROCS(0))`), runs
`BuildImage` (which may stream writer updates), sends one terminal
update onto `updatesChan`, releases its permit and calls
`waitGroup.Done`.  A closer goroutine waits for the group, refills the
permit channel to capacity, and closes the stream.  The interleaving of
these goroutines is modelled by the small-step relation `BuildStep`. -/

/-- Lifecycle position of one build goroutine: before the permit
acquisition; holding the permit with `BuildImage` running (terminal
update not yet sent); after sending the terminal update; after
releasing the permit; after `waitGroup.Done`. -/
inductive BuildPhase
  | notStarted
  | building
  | sentUpdate
  | releasedPermit
  | done
deriving DecidableEq

/-- Configuration of one `BuildServices` run: the CPU counts sizing the
permit pool, the project's services, and each goroutine's `BuildImage`
outcome (by index; `none` = success). -/
structure BuildConfig where
  numCPU : Nat
  gomaxprocs : Nat
  services : List Service
  buildResult : Nat → Option String

/-- The permit-pool capacity:
`min(goruntime.NumCPU(), goruntime.GOMAXPROCS(0))`. -/
def BuildConfig.permits (cfg : BuildConfig) : Nat :=
  min cfg.numCPU cfg.gomaxprocs

/-- Number of build goroutines (one per service). -/
def BuildConfig.n (cfg : BuildConfig) : Nat := cfg.services.length

/-- The service built by goroutine `i`. -/
def BuildConfig.serviceAt (cfg : BuildConfig) (i : Nat) : Service :=
  cfg.services.getD i { name := "", filePath := "", serviceType := "", startCmd := "" }

/-- A writer update streamed while `BuildImage` runs
(`NewBuildUpdateWriter` is declared outside the provided sources; per
the spec such in-progress updates have status `Building`). -/
def writerUpdate (cfg : BuildConfig) (i : Nat) (msg : String) : ServiceBuildUpdate :=
  { serviceName := (cfg.serviceAt i).name, message := msg,
    status := .Building, err := none }

/-- Shared state of a `BuildServices` run: per-goroutine phases, the
number of tokens in the permit channel, the `waitGroup` counter, the
number of refill tokens the closer has sent, whether `updatesChan` is
closed, and the updates sent so far (tagged with the sender index). -/
structure BuildState where
  phase : Nat → BuildPhase
  sem : Nat
  wg : Nat
  drained : Nat
  closed : Bool
  stream : List (Nat × ServiceBuildUpdate)

/-- Initial state: nothing started, permit channel empty, `waitGroup`
holding one count per service, stream open and empty. -/
def initBuildState (cfg : BuildConfig) : BuildState :=
  { phase := fun _ => .notStarted
    sem := 0
    wg := cfg.n
    drained := 0
    closed := false
    stream := [] }

/-- One interleaved step of the goroutines of `BuildServices`:
`acquire` = `maxConcurrentBuilds <- struct{}{}` (blocks unless the
buffer has room); `log` = a writer update during `BuildImage`; `send` =
the terminal update for the goroutine's `BuildImage` result; `release`
= `<-maxConcurrentBuilds`; `wgDone` = `waitGroup.Done()`; `drain` = one
refill send by the closer (enabled only once `waitGroup.Wait()` has
returned, i.e. `wg = 0`); `close` = `close(updatesChan)` after the
refill loop completed. -/
inductive BuildStep (cfg : BuildConfig) : BuildState → BuildState → Prop
  | acquire (s : BuildState) (i : Nat) :
      i < cfg.n → s.phase i = .notStarted → s.sem < cfg.permits →
      BuildStep cfg s { s with phase := Function.update s.phase i .building,
                               sem := s.sem + 1 }
  | log (s : BuildState) (i : Nat) (msg : String) :
      i < cfg.n → s.phase i = .building →
      BuildStep cfg s { s with stream := s.stream ++ [(i, writerUpdate cfg i msg)] }
  | send (s : BuildState) (i : Nat) :
      i < cfg.n → s.phase i = .building →
      BuildStep cfg s { s with
        phase := Function.update s.phase i .sentUpdate,
        stream := s.stream ++
          [(i, buildUpdateFor (cfg.serviceAt i) (cfg.buildResult i))] }
  | release (s : BuildState) (i : Nat) :
      i < cfg.n → s.phase i = .sentUpdate →
      BuildStep cfg s { s with phase := Function.update s.phase i .releasedPermit,
                               sem := s.sem - 1 }
  | wgDone (s : BuildState) (i : Nat) :
      i < cfg.n → s.phase i = .releasedPermit →
      BuildStep cfg s { s with phase := Function.update s.phase i .done,
                               wg := s.wg - 1 }
  | drain (s : BuildState) :
      s.wg = 0 → s.drained < cfg.permits → s.sem < cfg.permits →
      BuildStep cfg s { s with drained := s.drained + 1, sem := s.sem + 1 }
  | close (s : BuildState) :
      s.wg = 0 → s.drained = cfg.permits → s.closed = false →
      BuildStep cfg s { s with closed := true }

/-- States reachable from the start of a `BuildServices` run. -/
inductive BuildReachable (cfg : BuildConfig) : BuildState → Prop
  | init : BuildReachable cfg (initBuildState cfg)
  | step {s s' : BuildState} :
      BuildReachable cfg s → BuildStep cfg s s' → BuildReachable cfg s'

/-- A goroutine in this phase currently holds a permit. -/
def holdsPermit : BuildPhase → Bool
  | .building => true
  | .sentUpdate => true
  | _ => false

/-- A goroutine in this phase has not yet called `waitGroup.Done`. -/
def stillCounted : BuildPhase → Bool
  | .done => false
  | _ => true

/-- A goroutine in this phase is currently running `BuildImage`. -/
def isBuilding : BuildPhase → Bool
  | .building => true
  | _ => false

/-- A goroutine in this phase has already sent its terminal update. -/
def sentAlready : BuildPhase → Bool
  | .notStarted => false
  | .building => false
  | _ => true

/-- Number of goroutines among the first `n` whose phase satisfies `P`. -/
def phaseCount (n : Nat) (f : Nat → BuildPhase) (P : BuildPhase → Bool) : Nat :=
  ∑ j ∈ Finset.range n, (if P (f j) then 1 else 0)

/-- Whether an update is terminal (status `Complete` or `Error`). -/
def isTerminalUpdate (u : ServiceBuildUpdate) : Bool :=
  match u.status with
  | .Building => false
  | _ => true

/-- Number of terminal updates goroutine `i` has sent onto the stream. -/
def termCount (stream : List (Nat × ServiceBuildUpdate)) (i : Nat) : Nat :=
  (stream.filter fun e => e.1 == i && isTerminalUpdate e.2).length

/-- The inductive invariant of the `BuildServices` concurrency
skeleton: permit-token conservation, the channel-capacity bound, the
`waitGroup` count, the closer starting only after the group finished,
closing only after the refill, and the terminal-update ledger. -/
structure BuildInv (cfg : BuildConfig) (s : BuildState) : Prop where
  sem_eq : s.sem = phaseCount cfg.n s.phase holdsPermit + s.drained
  sem_le : s.sem ≤ cfg.permits
  wg_eq : s.wg = phaseCount cfg.n s.phase stillCounted
  drained_wg : s.drained = 0 ∨ s.wg = 0
  closed_drained : s.closed = true → s.wg = 0 ∧ s.drained = cfg.permits
  term_eq : ∀ i, i < cfg.n →
    termCount s.stream i = if sentAlready (s.phase i) then 1 else 0

/-- A one-service build run used to exercise the transition system on
concrete states: one CPU, one scheduler slot, one service whose build
succeeds. -/
def buildDemoSvc : Service :=
  { name := "a", filePath := "a.ts", serviceType := "", startCmd := "" }

def buildDemoCfg : BuildConfig :=
  { numCPU := 1, gomaxprocs := 1, services := [buildDemoSvc],
    buildResult := fun _ => none }

/-- The state of the demo run right after its goroutine acquired the
build permit. -/
def buildDemoMid : BuildState :=
  { phase := Function.update (fun _ => BuildPhase.notStarted) 0 BuildPhase.building
    sem := 1
    wg := 1
    drained := 0
    closed := false
    stream := [] }

/-- The final state of the demo run: goroutine done, permit refilled by
the closer, stream closed after the single terminal update. -/
def buildDemoClosed : BuildState :=
  { phase := Function.update (Function.update (Function.update (Function.update
      (fun _ => BuildPhase.notStarted) 0 BuildPhase.building) 0 BuildPhase.sentUpdate)
      0 BuildPhase.releasedPermit) 0 BuildPhase.done
    sem := 1
    wg := 0
    drained := 1
    closed := true
    stream := [(0, buildUpdateFor buildDemoSvc none)] }

/-! ## Lemmas: characters and path segments -/

theorem toNat_ofNat_of_valid {n : Nat} (h : n.isValidChar) :
    (Char.ofNat n).toNat = n := by
  rw [Char.ofNat, dif_pos h]; rfl

theorem toLowerChar_toNat (c : Char) :
    (toLowerChar c).toNat
      = if 65 ≤ c.toNat ∧ c.toNat ≤ 90 then c.toNat + 32 else c.toNat := by
  unfold toLowerChar
  by_cases h : 65 ≤ c.toNat ∧ c.toNat ≤ 90
  · rw [if_pos h, if_pos h]
    exact toNat_ofNat_of_valid (Or.inl (by omega))
  · rw [if_neg h, if_neg h]

theorem toLowerChar_eq_self {c : Char} (h : ¬(65 ≤ c.toNat ∧ c.toNat ≤ 90)) :
    toLowerChar c = c := by
  unfold toLowerChar; rw [if_neg h]

theorem toLowerChar_idem (c : Char) :
    toLowerChar (toLowerChar c) = toLowerChar c := by
  by_cases h : 65 ≤ c.toNat ∧ c.toNat ≤ 90
  · have h1 : (toLowerChar c).toNat = c.toNat + 32 := by
      rw [toLowerChar_toNat, if_pos h]
    exact toLowerChar_eq_self (by omega)
  · rw [toLowerChar_eq_self h]
    exact toLowerChar_eq_self h

theorem toLowerChar_ne_of_ne {c d : Char} (hd : d.toNat < 65) (hcd : c ≠ d) :
    toLowerChar c ≠ d := by
  by_cases h : 65 ≤ c.toNat ∧ c.toNat ≤ 90
  · intro he
    have h2 : (toLowerChar c).toNat = c.toNat + 32 := by
      rw [toLowerChar_toNat, if_pos h]
    rw [he] at h2
    omega
  · rw [toLowerChar_eq_self h]
    exact hcd

theorem splitOnSlash_ne_nil (l : List Char) : splitOnSlash l ≠ [] := by
  induction l with
  | nil => simp [splitOnSlash]
  | cons c cs ih =>
    unfold splitOnSlash
    by_cases h : c = '/'
    · simp [h]
    · rw [if_neg h]
      cases hsp : splitOnSlash cs with
      | nil => simp [consHead]
      | cons hd tl => simp [consHead]

theorem slash_not_mem_of_mem_splitOnSlash :
    ∀ {l : List Char} {part : List Char}, part ∈ splitOnSlash l → '/' ∉ part := by
  intro l
  induction l with
  | nil =>
    intro part h
    simp [splitOnSlash] at h
    subst h; simp
  | cons c cs ih =>
    intro part h
    unfold splitOnSlash at h
    by_cases hc : c = '/'
    · rw [if_pos hc] at h
      rcases List.mem_cons.mp h with h1 | h2
      · subst h1; simp
      · exact ih h2
    · rw [if_neg hc] at h
      cases hsp : splitOnSlash cs with
      | nil => exact absurd hsp (splitOnSlash_ne_nil cs)
      | cons hd tl =>
        rw [hsp, consHead] at h
        rcases List.mem_cons.mp h with h1 | h2
        · subst h1
          intro hmem
          rcases List.mem_cons.mp hmem with h3 | h4
          · exact hc h3.symm
          · exact ih (hsp ▸ List.mem_cons_self hd tl) h4
        · exact ih (hsp ▸ List.mem_cons_of_mem hd h2)

theorem splitOnSlash_of_no_slash {s : List Char} (h : '/' ∉ s) :
    splitOnSlash s = [s] := by
  induction s with
  | nil => rfl
  | cons c cs ih =>
    have hc : c ≠ '/' := fun he => h (he ▸ List.mem_cons_self c cs)
    unfold splitOnSlash
    rw [if_neg hc, ih (fun hm => h (List.mem_cons_of_mem c hm))]
    rfl

theorem splitOnSlash_append {s : List Char} (t : List Char) (h : '/' ∉ s) :
    splitOnSlash (s ++ '/' :: t) = s :: splitOnSlash t := by
  induction s with
  | nil => simp [splitOnSlash]
  | cons c cs ih =>
    have hc : c ≠ '/' := fun he => h (he ▸ List.mem_cons_self c cs)
    simp only [List.cons_append, splitOnSlash, List.append_eq]
    rw [if_neg hc, ih (fun hm => h (List.mem_cons_of_mem c hm))]
    rfl

theorem splitOnSlash_joinSlash :
    ∀ {parts : List (List Char)}, parts ≠ [] → (∀ p ∈ parts, '/' ∉ p) →
      splitOnSlash (joinSlash parts) = parts
  | [], h, _ => absurd rfl h
  | [s], _, hp => by
      show splitOnSlash s = [s]
      exact splitOnSlash_of_no_slash (hp s (by simp))
  | s :: h2 :: t, _, hp => by
      show splitOnSlash (s ++ '/' :: joinSlash (h2 :: t)) = s :: h2 :: t
      rw [splitOnSlash_append _ (hp s (by simp))]
      congr 1
      exact splitOnSlash_joinSlash (by simp)
        (fun p hmem => hp p (List.mem_cons_of_mem s hmem))

theorem slash_not_mem_normalizeSeg {part : List Char} (h : '/' ∉ part) :
    '/' ∉ normalizeSeg part := by
  unfold normalizeSeg
  split
  · decide
  · intro hmem
    rcases List.mem_map.mp hmem with ⟨c, hc, he⟩
    have hcne : c ≠ '/' := fun h2 => h (h2 ▸ hc)
    exact toLowerChar_ne_of_ne (by decide) hcne he

theorem normalizeSeg_idem (part : List Char) :
    normalizeSeg (normalizeSeg part) = normalizeSeg part := by
  unfold normalizeSeg
  by_cases h : part.head? = some ':'
  · rw [if_pos h, if_pos (by decide)]
  · have hguard : ¬((part.map toLowerChar).head? = some ':') := by
      cases part with
      | nil => simp
      | cons c cs =>
        simp only [List.map_cons, List.head?_cons, Option.some.injEq]
        have hcne : c ≠ ':' := by
          intro he
          exact h (by simp [he])
        exact toLowerChar_ne_of_ne (by decide) hcne
    rw [if_neg h, if_neg hguard, List.map_map]
    exact List.map_congr_left (fun c _ => toLowerChar_idem c)

/-- C6: path normalization is idempotent — for every path string `p`,
`normalizePath (normalizePath p) = normalizePath p`. -/
theorem normalizePath_idempotent (p : String) :
    normalizePath (normalizePath p) = normalizePath p := by
  unfold normalizePath SplitPath
  congr 1
  have h1 : splitOnSlash (joinSlash ((splitOnSlash p.data).map normalizeSeg))
      = (splitOnSlash p.data).map normalizeSeg := by
    apply splitOnSlash_joinSlash
    · intro hnil
      exact splitOnSlash_ne_nil p.data (List.map_eq_nil_iff.mp hnil)
    · intro q hq
      rcases List.mem_map.mp hq with ⟨part, hpart, rfl⟩
      exact slash_not_mem_normalizeSeg (slash_not_mem_of_mem_splitOnSlash hpart)
  rw [show (String.mk ((splitOnSlash p.data).map normalizeSeg |> joinSlash)).data
        = joinSlash ((splitOnSlash p.data).map normalizeSeg) from rfl]
  rw [h1, List.map_map]
  congr 1
  exact List.map_congr_left (fun part _ => normalizeSeg_idem part)

/-! ## Lemmas: the Api route registry -/

theorem addWorker_matched {a : Api} {w : ApiWorker}
    (h : ∃ ex ∈ a.workers, matchingWorkers ex w = true) :
    a.AddWorker w = { a with parentErrors := a.parentErrors + 1 } := by
  have hc : (a.workers.any fun existing => matchingWorkers existing w) = true := by
    rw [List.any_eq_true]; exact h
  unfold Api.AddWorker
  rw [if_pos hc]

theorem addWorker_unmatched {a : Api} {w : ApiWorker}
    (h : ∀ ex ∈ a.workers, matchingWorkers ex w = false) :
    a.AddWorker w = { a with workers := a.workers ++ [w] } := by
  have hc : ¬((a.workers.any fun existing => matchingWorkers existing w) = true) := by
    rw [List.any_eq_true]
    rintro ⟨ex, hex, hm⟩
    rw [h ex hex] at hm
    cases hm
  unfold Api.AddWorker
  rw [if_neg hc]

/-- C1 counterexample: brace-style segments are not recognized as
parameter placeholders by `normalizePath` (only `":"`-prefixed segments
are canonicalized), so the workers `/users/{id}` and `/users/{userId}`,
both declaring method `GET`, do NOT collide: `AddWorker` keeps both,
contradicting the claim that the later one is detected as overlapping
and dropped. -/
theorem brace_placeholder_workers_do_not_collide :
    matchingWorkers ⟨"/users/{id}", ["GET"]⟩ ⟨"/users/{userId}", ["GET"]⟩ = false
    ∧ ((newApi.AddWorker ⟨"/users/{id}", ["GET"]⟩).AddWorker
          ⟨"/users/{userId}", ["GET"]⟩).workers
        = [⟨"/users/{id}", ["GET"]⟩, ⟨"/users/{userId}", ["GET"]⟩] := by
  constructor
  · decide
  · decide

/-- C1 (amended): with the parameter-placeholder syntax the code
actually recognizes — colon-prefixed segments — workers `/users/:id`
and `/users/:userId` whose method sets share at least one method
collide in `AddWorker` (the later one is detected as overlapping and
dropped), and with disjoint method sets they do not collide and both
are kept. -/
theorem colon_param_workers_collide_iff_methods_shared (ms1 ms2 : List String) :
    ((∃ m, m ∈ ms1 ∧ m ∈ ms2) →
      matchingWorkers ⟨"/users/:id", ms1⟩ ⟨"/users/:userId", ms2⟩ = true
      ∧ ((newApi.AddWorker ⟨"/users/:id", ms1⟩).AddWorker
            ⟨"/users/:userId", ms2⟩).workers
          = [⟨"/users/:id", ms1⟩])
    ∧ (ms1.Disjoint ms2 →
      matchingWorkers ⟨"/users/:id", ms1⟩ ⟨"/users/:userId", ms2⟩ = false
      ∧ ((newApi.AddWorker ⟨"/users/:id", ms1⟩).AddWorker
            ⟨"/users/:userId", ms2⟩).workers
          = [⟨"/users/:id", ms1⟩, ⟨"/users/:userId", ms2⟩]) := by
  have hpath : normalizePath "/users/:id" = normalizePath "/users/:userId" := by
    decide
  have hmw : matchingWorkers ⟨"/users/:id", ms1⟩ ⟨"/users/:userId", ms2⟩
      = (ms1.any fun aMethod => ms2.any fun bMethod => aMethod == bMethod) := by
    unfold matchingWorkers
    rw [if_pos hpath]
  have hadd1 : newApi.AddWorker ⟨"/users/:id", ms1⟩
      = { newApi with workers := [⟨"/users/:id", ms1⟩] } := by
    rw [addWorker_unmatched (fun ex hex => absurd hex (List.not_mem_nil ex))]
    rfl
  constructor
  · intro hshared
    have hmwt : matchingWorkers ⟨"/users/:id", ms1⟩ ⟨"/users/:userId", ms2⟩ = true := by
      rw [hmw, List.any_eq_true]
      rcases hshared with ⟨m, hm1, hm2⟩
      exact ⟨m, hm1, by rw [List.any_eq_true]; exact ⟨m, hm2, by simp⟩⟩
    refine ⟨hmwt, ?_⟩
    rw [hadd1, addWorker_matched ⟨⟨"/users/:id", ms1⟩, by simp, hmwt⟩]
  · intro hdisj
    have hmwf : matchingWorkers ⟨"/users/:id", ms1⟩ ⟨"/users/:userId", ms2⟩ = false := by
      rw [hmw]
      rw [Bool.eq_false_iff]
      intro hany
      rw [List.any_eq_true] at hany
      rcases hany with ⟨m, hm1, hin⟩
      rw [List.any_eq_true] at hin
      rcases hin with ⟨b, hb, he⟩
      have hmb : m = b := by simpa using he
      exact hdisj hm1 (hmb ▸ hb)
    refine ⟨hmwf, ?_⟩
    have h2 : ∀ ex ∈ ({ newApi with
          workers := [⟨"/users/:id", ms1⟩] } : Api).workers,
        matchingWorkers ex ⟨"/users/:userId", ms2⟩ = false := by
      intro ex hex
      have hex1 : ex = ⟨"/users/:id", ms1⟩ := by simpa using hex
      rw [hex1]
      exact hmwf
    rw [hadd1, addWorker_unmatched h2]
    rfl

/-- Witness for the amended C1 claim at concrete inputs: shared `GET`
collides, disjoint `GET` vs `POST` does not. -/
theorem colon_param_workers_collide_iff_methods_shared_witness :
    matchingWorkers ⟨"/users/:id", ["GET"]⟩ ⟨"/users/:userId", ["GET"]⟩ = true
    ∧ matchingWorkers ⟨"/users/:id", ["GET"]⟩ ⟨"/users/:userId", ["POST"]⟩ = false :=
  ⟨((colon_param_workers_collide_iff_methods_shared ["GET"] ["GET"]).1
      ⟨"GET", by decide, by decide⟩).1,
   ((colon_param_workers_collide_iff_methods_shared ["GET"] ["POST"]).2
      (by intro x hx hy; simp at hx; subst hx; simp at hy)).1⟩

/-- C2: `AddWorker` leaves the worker list unchanged and records one
non-fatal conflict against the owning service when some existing worker
collides with the new one; otherwise it appends the worker, growing the
count by exactly one.  It never aborts: it is a total function on the
registry state, and a collision only increments the parent's recorded
error count. -/
theorem addWorker_collision_spec (a : Api) (w : ApiWorker) :
    ((∃ ex ∈ a.workers, matchingWorkers ex w = true) →
      (a.AddWorker w).workers = a.workers
      ∧ (a.AddWorker w).parentErrors = a.parentErrors + 1)
    ∧ ((∀ ex ∈ a.workers, matchingWorkers ex w = false) →
      (a.AddWorker w).workers = a.workers ++ [w]
      ∧ (a.AddWorker w).workers.length = a.workers.length + 1
      ∧ (a.AddWorker w).parentErrors = a.parentErrors) := by
  constructor
  · intro h
    rw [addWorker_matched h]
    exact ⟨rfl, rfl⟩
  · intro h
    rw [addWorker_unmatched h]
    refine ⟨rfl, ?_, rfl⟩
    simp

/-- Witness for C2 at concrete inputs: an append into an empty registry
and a collision between two colon-parameter workers. -/
theorem addWorker_collision_spec_witness :
    (newApi.AddWorker ⟨"/users", ["GET"]⟩).workers
        = newApi.workers ++ [⟨"/users", ["GET"]⟩]
    ∧ ((newApi.AddWorker ⟨"/users/:id", ["GET"]⟩).AddWorker
          ⟨"/users/:userId", ["GET"]⟩).parentErrors
        = (newApi.AddWorker ⟨"/users/:id", ["GET"]⟩).parentErrors + 1 :=
  ⟨((addWorker_collision_spec newApi ⟨"/users", ["GET"]⟩).2
      (fun ex hex => absurd hex (List.not_mem_nil ex))).1,
   ((addWorker_collision_spec (newApi.AddWorker ⟨"/users/:id", ["GET"]⟩)
      ⟨"/users/:userId", ["GET"]⟩).1 (by decide)).2⟩

/-- C5: `AddSecurity(name, nil)` stores an explicit empty scope list —
the lookup afterwards yields `some []`, not an absent entry — and
repeated `AddSecurity` / `AddSecurityDefinition` calls under one name
overwrite the previous value (last write wins). -/
theorem addSecurity_nil_empty_and_last_write_wins (a : Api) (name : String)
    (s1 s2 : Option (List String)) (d1 d2 : ApiSecurityDefinition) :
    (a.AddSecurity name none).security name = some []
    ∧ ((a.AddSecurity name s1).AddSecurity name s2).security name
        = some (s2.getD [])
    ∧ ((a.AddSecurity name s1).AddSecurity name s2).security name
        = (a.AddSecurity name s2).security name
    ∧ ((a.AddSecurityDefinition name d1).AddSecurityDefinition name d2).securityDefinitions name
        = some d2 := by
  have key : ∀ (b : Api) (s : Option (List String)),
      (b.AddSecurity name s).security name = some (s.getD []) := by
    intro b s
    cases s <;> simp [Api.AddSecurity]
  refine ⟨?_, ?_, ?_, ?_⟩
  · simpa using key a none
  · exact key _ s2
  · rw [key _ s2, key a s2]
  · simp [Api.AddSecurityDefinition]

/-- C10: frame conditions of the Api operations — `AddWorker` never
modifies the security or securityDefinitions maps and only ever appends
to the worker list (old list unchanged or extended by the new worker at
the end); `AddSecurity` and `AddSecurityDefinition` never modify the
workers list, never touch the respective other map, and never touch map
entries under other names. -/
theorem api_operations_frame (a : Api) (w : ApiWorker) (name : String)
    (scopes : Option (List String)) (sd : ApiSecurityDefinition) :
    ((a.AddWorker w).security = a.security
      ∧ (a.AddWorker w).securityDefinitions = a.securityDefinitions
      ∧ ((a.AddWorker w).workers = a.workers
          ∨ (a.AddWorker w).workers = a.workers ++ [w]))
    ∧ ((a.AddSecurity name scopes).workers = a.workers
      ∧ (a.AddSecurity name scopes).securityDefinitions = a.securityDefinitions
      ∧ ∀ n, n ≠ name → (a.AddSecurity name scopes).security n = a.security n)
    ∧ ((a.AddSecurityDefinition name sd).workers = a.workers
      ∧ (a.AddSecurityDefinition name sd).security = a.security
      ∧ ∀ n, n ≠ name →
          (a.AddSecurityDefinition name sd).securityDefinitions n
            = a.securityDefinitions n) := by
  refine ⟨⟨?_, ?_, ?_⟩, ⟨?_, ?_, ?_⟩, ⟨?_, ?_, ?_⟩⟩
  · unfold Api.AddWorker; split <;> rfl
  · unfold Api.AddWorker; split <;> rfl
  · unfold Api.AddWorker; split
    · exact Or.inl rfl
    · exact Or.inr rfl
  · cases scopes <;> rfl
  · cases scopes <;> rfl
  · intro n hn; cases scopes <;> simp [Api.AddSecurity, hn]
  · rfl
  · rfl
  · intro n hn; simp [Api.AddSecurityDefinition, hn]

/-- Witness for C10 at concrete inputs: adding a worker leaves the
security map intact, and a security write under one name leaves a
different name's entry intact. -/
theorem api_operations_frame_witness :
    (newApi.AddWorker ⟨"/a", ["GET"]⟩).security = newApi.security
    ∧ (newApi.AddSecurity "auth" none).security "other"
        = newApi.security "other" :=
  ⟨((api_operations_frame newApi ⟨"/a", ["GET"]⟩ "auth" none ⟨0⟩).1).1,
   ((api_operations_frame newApi ⟨"/a", ["GET"]⟩ "auth" none ⟨0⟩).2.1).2.2 "other"
      (by decide)⟩

/-! ## Lemmas: requirement collection and build orchestration -/

theorem length_filterMap_of_all_isSome {α β : Type} (f : α → Option β) :
    ∀ l : List α, (∀ a ∈ l, (f a).isSome) → (l.filterMap f).length = l.length := by
  intro l
  induction l with
  | nil => intro _; rfl
  | cons a as ih =>
    intro h
    cases ho : f a with
    | none =>
      have h1 := h a (List.mem_cons_self a as)
      rw [ho] at h1
      cases h1
    | some b =>
      simp only [List.filterMap_cons, ho, List.length_cons]
      rw [ih (fun x hx => h x (List.mem_cons_of_mem a hx))]

/-- C3: if at least one collection session fails, the coordinator
returns no requirements at all — only a composite error containing
every failing session's error, even though other sessions succeeded; if
no session fails it returns one requirements set per service. -/
theorem collectServicesRequirements_all_or_nothing (p : Project)
    (run : Service → Except String ServiceRequirements) :
    ((∃ s ∈ p.services, ∃ e, p.collectServiceRequirements s (run s) = .error e) →
      p.CollectServicesRequirements run = .error (p.serviceErrors run)
      ∧ p.serviceErrors run ≠ []
      ∧ ∀ s ∈ p.services, ∀ e, p.collectServiceRequirements s (run s) = .error e →
          e ∈ p.serviceErrors run)
    ∧ ((∀ s ∈ p.services, ∃ r, p.collectServiceRequirements s (run s) = .ok r) →
      p.CollectServicesRequirements run = .ok (p.allServiceRequirements run)
      ∧ (p.allServiceRequirements run).length = p.services.length) := by
  have hmem : ∀ s ∈ p.services, ∀ e,
      p.collectServiceRequirements s (run s) = .error e →
        e ∈ p.serviceErrors run := by
    intro s hs e he
    unfold Project.serviceErrors
    rw [List.mem_filterMap]
    exact ⟨s, hs, by rw [he]⟩
  constructor
  · rintro ⟨s, hs, e, he⟩
    have hne : p.serviceErrors run ≠ [] :=
      List.ne_nil_of_mem (hmem s hs e he)
    have hcond : ¬((p.serviceErrors run).isEmpty = true) := by
      rw [List.isEmpty_iff]
      exact hne
    refine ⟨?_, hne, hmem⟩
    unfold Project.CollectServicesRequirements
    rw [if_neg hcond]
  · intro hok
    have hnil : p.serviceErrors run = [] := by
      unfold Project.serviceErrors
      rw [List.filterMap_eq_nil_iff]
      intro s hs
      rcases hok s hs with ⟨r, hr⟩
      rw [hr]
    have hcond : (p.serviceErrors run).isEmpty = true := by
      rw [List.isEmpty_iff]
      exact hnil
    constructor
    · unfold Project.CollectServicesRequirements
      rw [if_pos hcond]
    · unfold Project.allServiceRequirements
      apply length_filterMap_of_all_isSome
      intro s hs
      rcases hok s hs with ⟨r, hr⟩
      rw [hr]
      rfl

/-- Witness for C3: with services A, B, C where B's session fails, the
coordinator yields only the composite error mentioning B's error; with
all sessions succeeding it yields one requirements set per service. -/
theorem collectServicesRequirements_all_or_nothing_witness :
    ({ name := "p", preview := [],
       services := [⟨"A", "a.ts", "", ""⟩, ⟨"B", "b.ts", "", ""⟩,
                    ⟨"C", "c.ts", "", ""⟩] } : Project).CollectServicesRequirements
      (fun s => if s.name = "B" then .error "B failed" else .ok ⟨s.name, s.filePath, []⟩)
      = .error ["B failed"] :=
  (((collectServicesRequirements_all_or_nothing
      { name := "p", preview := [],
        services := [⟨"A", "a.ts", "", ""⟩, ⟨"B", "b.ts", "", ""⟩,
                     ⟨"C", "c.ts", "", ""⟩] }
      (fun s => if s.name = "B" then .error "B failed"
                else .ok ⟨s.name, s.filePath, []⟩)).1
    ⟨⟨"B", "b.ts", "", ""⟩, by decide, "B failed", rfl⟩).1).trans
    (congrArg Except.error (by decide))

/-- C4: after the launched process completes successfully, the session
fails iff the service declared SQL/database usage while the project's
preview-feature set lacks database support; the failure is the
ConfigurationError whose message names the offending service by its
source file; when the feature is present or no database is declared the
requirements pass through unchanged. -/
theorem collectServiceRequirements_database_preview_check (p : Project)
    (service : Service) (reqs : ServiceRequirements) :
    (reqs.HasDatabases = true → p.preview.contains Feature.SqlDatabases = false →
      p.collectServiceRequirements service (.ok reqs)
        = .error (databaseFeatureErrorMsg service))
    ∧ (p.preview.contains Feature.SqlDatabases = true ∨ reqs.HasDatabases = false →
      p.collectServiceRequirements service (.ok reqs) = .ok reqs)
    ∧ (∃ rest, databaseFeatureErrorMsg service
        = "service " ++ service.GetFilePath ++ rest) := by
  have hshape : p.collectServiceRequirements service (.ok reqs)
      = if (reqs.HasDatabases && !p.preview.contains Feature.SqlDatabases) = true
        then Except.error (databaseFeatureErrorMsg service)
        else Except.ok reqs := rfl
  refine ⟨?_, ?_, ?_⟩
  · intro h1 h2
    rw [hshape, h1, h2]
    rfl
  · intro h
    rcases h with h | h <;> rw [hshape, h] <;> simp
  · exact ⟨" requires a database, but the project does not have the \x27sql-databases\x27 preview feature enabled. Please add sql-databases to the preview field of your nitric.yaml file to enable this feature", rfl⟩

/-- Witness for C4: a service declaring a database in a project without
the `sql-databases` preview feature fails with the configuration error;
with the feature enabled the same session succeeds. -/
theorem collectServiceRequirements_database_preview_check_witness :
    ({ name := "p", preview := [], services := [] } : Project).collectServiceRequirements
        ⟨"svc", "services/svc.ts", "", ""⟩ (.ok ⟨"svc", "services/svc.ts", ["db"]⟩)
      = .error (databaseFeatureErrorMsg ⟨"svc", "services/svc.ts", "", ""⟩)
    ∧ ({ name := "p", preview := [Feature.SqlDatabases],
         services := [] } : Project).collectServiceRequirements
        ⟨"svc", "services/svc.ts", "", ""⟩ (.ok ⟨"svc", "services/svc.ts", ["db"]⟩)
      = .ok ⟨"svc", "services/svc.ts", ["db"]⟩ :=
  ⟨(collectServiceRequirements_database_preview_check _ _ _).1 (by decide) (by decide),
   (collectServiceRequirements_database_preview_check _ _ _).2.1 (Or.inl (by decide))⟩

/-- C7: `BuildServices` fails synchronously exactly when the project's
service list is empty; with services present it returns the update
stream, and an individual service's build failure shows up there as an
Error-status update with the underlying error attached — never as a
synchronous failure. -/
theorem buildServices_sync_failure_iff_no_services (p : Project)
    (buildResult : Service → Option String) :
    (p.services = [] ↔ p.BuildServices buildResult = .error noServicesMsg)
    ∧ (p.services ≠ [] →
      p.BuildServices buildResult
        = .ok (p.services.map fun svc => buildUpdateFor svc (buildResult svc)))
    ∧ (∀ svc e, buildResult svc = some e →
      (buildUpdateFor svc (buildResult svc)).status = ServiceBuildStatus.Error
      ∧ (buildUpdateFor svc (buildResult svc)).err = some e) := by
  have hok : p.services ≠ [] →
      p.BuildServices buildResult
        = .ok (p.services.map fun svc => buildUpdateFor svc (buildResult svc)) := by
    intro h
    unfold Project.BuildServices
    rw [if_neg (fun hl => h (List.length_eq_zero.mp hl))]
  refine ⟨⟨?_, ?_⟩, hok, ?_⟩
  · intro h
    unfold Project.BuildServices
    rw [if_pos (by rw [h]; rfl)]
  · intro h
    by_cases hnil : p.services = []
    · exact hnil
    · rw [hok hnil] at h
      cases h
  · intro svc e he
    rw [he]
    exact ⟨rfl, rfl⟩

/-- Witness for C7: the empty project fails synchronously; a one-service
project whose build fails yields a stream with the Error update. -/
theorem buildServices_sync_failure_iff_no_services_witness :
    ({ name := "p", preview := [], services := [] } : Project).BuildServices
        (fun _ => none)
      = .error noServicesMsg
    ∧ ({ name := "p", preview := [],
         services := [⟨"a", "a.ts", "", ""⟩] } : Project).BuildServices
        (fun _ => some "boom")
      = .ok [buildUpdateFor ⟨"a", "a.ts", "", ""⟩ (some "boom")] :=
  ⟨(buildServices_sync_failure_iff_no_services _ _).1.mp rfl,
   (buildServices_sync_failure_iff_no_services _ _).2.1 (by decide)⟩

/-! ## Lemmas: the BuildServices concurrency skeleton -/

theorem phaseCount_update_add (n : Nat) (f : Nat → BuildPhase)
    (P : BuildPhase → Bool) {i : Nat} (hi : i < n) (v : BuildPhase) :
    phaseCount n (Function.update f i v) P + (if P (f i) then 1 else 0)
      = phaseCount n f P + (if P v then 1 else 0) := by
  classical
  unfold phaseCount
  have hmem : i ∈ Finset.range n := Finset.mem_range.mpr hi
  rw [← Finset.add_sum_erase _
        (fun j => if P (Function.update f i v j) then (1 : Nat) else 0) hmem,
      ← Finset.add_sum_erase _ (fun j => if P (f j) then (1 : Nat) else 0) hmem]
  have hcong : ∑ j ∈ (Finset.range n).erase i,
        (if P (Function.update f i v j) then (1 : Nat) else 0)
      = ∑ j ∈ (Finset.range n).erase i, (if P (f j) then (1 : Nat) else 0) := by
    apply Finset.sum_congr rfl
    intro j hj
    rw [Function.update_noteq (Finset.ne_of_mem_erase hj)]
  rw [hcong, Function.update_same]
  omega

theorem le_phaseCount_of_mem (n : Nat) (f : Nat → BuildPhase)
    (P : BuildPhase → Bool) {i : Nat} (hi : i < n) (hP : P (f i) = true) :
    1 ≤ phaseCount n f P := by
  unfold phaseCount
  have hmem : i ∈ Finset.range n := Finset.mem_range.mpr hi
  refine le_trans ?_
    (Finset.single_le_sum (f := fun j => if P (f j) then (1 : Nat) else 0)
      (fun j _ => Nat.zero_le _) hmem)
  dsimp only
  rw [if_pos hP]

theorem phase_false_of_phaseCount_eq_zero {n : Nat} {f : Nat → BuildPhase}
    {P : BuildPhase → Bool} (h : phaseCount n f P = 0) {i : Nat} (hi : i < n) :
    P (f i) = false := by
  cases hP : P (f i) with
  | false => rfl
  | true =>
    have := le_phaseCount_of_mem n f P hi hP
    omega

theorem phaseCount_mono {n : Nat} {f : Nat → BuildPhase}
    {P Q : BuildPhase → Bool} (h : ∀ p, P p = true → Q p = true) :
    phaseCount n f P ≤ phaseCount n f Q := by
  unfold phaseCount
  apply Finset.sum_le_sum
  intro j _
  by_cases hP : P (f j) = true
  · rw [if_pos hP, if_pos (h _ hP)]
  · rw [if_neg hP]
    exact Nat.zero_le _

theorem termCount_append (stream : List (Nat × ServiceBuildUpdate))
    (x : Nat × ServiceBuildUpdate) (i : Nat) :
    termCount (stream ++ [x]) i
      = termCount stream i
        + (if (x.1 == i && isTerminalUpdate x.2) = true then 1 else 0) := by
  unfold termCount
  rw [List.filter_append, List.length_append]
  congr 1
  cases h : (x.1 == i && isTerminalUpdate x.2)
  · simp [List.filter_cons, h]
  · simp [List.filter_cons, h]

theorem isTerminalUpdate_buildUpdateFor (svc : Service) (r : Option String) :
    isTerminalUpdate (buildUpdateFor svc r) = true := by
  cases r <;> rfl

theorem buildInv_init (cfg : BuildConfig) : BuildInv cfg (initBuildState cfg) := by
  constructor
  · unfold phaseCount initBuildState
    simp [holdsPermit]
  · exact Nat.zero_le _
  · unfold phaseCount initBuildState
    simp [stillCounted]
  · exact Or.inl rfl
  · intro h
    exact absurd h (by simp [initBuildState])
  · intro i hi
    unfold termCount initBuildState
    simp [sentAlready]

theorem buildInv_step {cfg : BuildConfig} {s s' : BuildState}
    (hinv : BuildInv cfg s) (hstep : BuildStep cfg s s') : BuildInv cfg s' := by
  obtain ⟨hsem, hle, hwg, hdw, hcd, hterm⟩ := hinv
  cases hstep with
  | acquire i hi hph hsl =>
    have hH := phaseCount_update_add cfg.n s.phase holdsPermit hi .building
    rw [hph] at hH
    simp only [holdsPermit] at hH
    have hS := phaseCount_update_add cfg.n s.phase stillCounted hi .building
    rw [hph] at hS
    simp only [stillCounted] at hS
    refine ⟨?_, ?_, ?_, ?_, ?_, ?_⟩
    · dsimp only
      simp only [if_true, if_false, Bool.false_eq_true] at hH
      omega
    · dsimp only
      omega
    · dsimp only
      simp only [if_true] at hS
      omega
    · exact hdw
    · exact hcd
    · intro j hj
      dsimp only
      by_cases hji : j = i
      · subst hji
        rw [Function.update_same, hterm j hj, hph]
        simp [sentAlready]
      · rw [Function.update_noteq hji]
        exact hterm j hj
  | log i msg hi hph =>
    refine ⟨hsem, hle, hwg, hdw, hcd, ?_⟩
    intro j hj
    dsimp only
    rw [termCount_append]
    have hnt : isTerminalUpdate (writerUpdate cfg i msg) = false := rfl
    rw [hnt]
    simpa using hterm j hj
  | send i hi hph =>
    have hH := phaseCount_update_add cfg.n s.phase holdsPermit hi .sentUpdate
    rw [hph] at hH
    simp only [holdsPermit] at hH
    have hS := phaseCount_update_add cfg.n s.phase stillCounted hi .sentUpdate
    rw [hph] at hS
    simp only [stillCounted] at hS
    refine ⟨?_, hle, ?_, hdw, hcd, ?_⟩
    · dsimp only
      simp only [if_true] at hH
      omega
    · dsimp only
      simp only [if_true] at hS
      omega
    · intro j hj
      dsimp only
      rw [termCount_append]
      by_cases hji : j = i
      · subst hji
        rw [Function.update_same, hterm j hj, hph]
        simp [sentAlready, isTerminalUpdate_buildUpdateFor]
      · rw [Function.update_noteq hji, hterm j hj]
        have hb : ((i == j) && isTerminalUpdate
            (buildUpdateFor (cfg.serviceAt i) (cfg.buildResult i))) = false := by
          simp [Ne.symm hji]
        rw [hb]
        simp
  | release i hi hph =>
    have hH := phaseCount_update_add cfg.n s.phase holdsPermit hi .releasedPermit
    rw [hph] at hH
    simp only [holdsPermit] at hH
    have hS := phaseCount_update_add cfg.n s.phase stillCounted hi .releasedPermit
    rw [hph] at hS
    simp only [stillCounted] at hS
    have hpos : 1 ≤ phaseCount cfg.n s.phase holdsPermit :=
      le_phaseCount_of_mem cfg.n s.phase holdsPermit hi (by rw [hph]; rfl)
    refine ⟨?_, ?_, ?_, hdw, hcd, ?_⟩
    · dsimp only
      simp only [if_true, if_false, Bool.false_eq_true] at hH
      omega
    · dsimp only
      omega
    · dsimp only
      simp only [if_true] at hS
      omega
    · intro j hj
      dsimp only
      by_cases hji : j = i
      · subst hji
        rw [Function.update_same, hterm j hj, hph]
        simp [sentAlready]
      · rw [Function.update_noteq hji]
        exact hterm j hj
  | wgDone i hi hph =>
    have hH := phaseCount_update_add cfg.n s.phase holdsPermit hi .done
    rw [hph] at hH
    simp only [holdsPermit] at hH
    have hS := phaseCount_update_add cfg.n s.phase stillCounted hi .done
    rw [hph] at hS
    simp only [stillCounted] at hS
    have hpos : 1 ≤ phaseCount cfg.n s.phase stillCounted :=
      le_phaseCount_of_mem cfg.n s.phase stillCounted hi (by rw [hph]; rfl)
    refine ⟨?_, hle, ?_, ?_, ?_, ?_⟩
    · dsimp only
      simp only [if_false, Bool.false_eq_true] at hH
      omega
    · dsimp only
      simp only [if_true, if_false, Bool.false_eq_true] at hS
      omega
    · dsimp only
      omega
    · intro hc
      rcases hcd hc with ⟨h0, hK⟩
      refine ⟨?_, hK⟩
      omega
    · intro j hj
      dsimp only
      by_cases hji : j = i
      · subst hji
        rw [Function.update_same, hterm j hj, hph]
        simp [sentAlready]
      · rw [Function.update_noteq hji]
        exact hterm j hj
  | drain hwg0 hdl hsl =>
    refine ⟨?_, ?_, hwg, Or.inr hwg0, ?_, hterm⟩
    · dsimp only
      omega
    · dsimp only
      omega
    · intro hc
      exact absurd (hcd hc).2 (Nat.ne_of_lt hdl)
  | close hwg0 hdK hno =>
    exact ⟨hsem, hle, hwg, hdw, fun _ => ⟨hwg0, hdK⟩, hterm⟩

theorem buildInv_reachable {cfg : BuildConfig} {s : BuildState}
    (h : BuildReachable cfg s) : BuildInv cfg s := by
  induction h with
  | init => exact buildInv_init cfg
  | step _ hstep ih => exact buildInv_step ih hstep

theorem stillCounted_eq_false_iff (p : BuildPhase) :
    stillCounted p = false ↔ p = BuildPhase.done := by
  cases p <;> simp [stillCounted]

/-- C8: in every reachable state of the `BuildServices` concurrency
skeleton in which the update stream has been closed, every service's
build goroutine has finished, the stream carries exactly one terminal
(`Complete`/`Error`) update per service, every permit has been returned
by the builders, and no further step — in particular no send — is
possible: the close cannot race any send. -/
theorem buildStream_one_terminal_per_service_then_close (cfg : BuildConfig)
    (s : BuildState) (hreach : BuildReachable cfg s) (hclosed : s.closed = true) :
    (∀ i, i < cfg.n → s.phase i = BuildPhase.done)
    ∧ (∀ i, i < cfg.n → termCount s.stream i = 1)
    ∧ phaseCount cfg.n s.phase holdsPermit = 0
    ∧ (∀ s2, ¬ BuildStep cfg s s2) := by
  obtain ⟨hsem, hle, hwg, hdw, hcd, hterm⟩ := buildInv_reachable hreach
  rcases hcd hclosed with ⟨hwg0, hdK⟩
  have hall : ∀ i, i < cfg.n → s.phase i = BuildPhase.done := by
    intro i hi
    have h0 : phaseCount cfg.n s.phase stillCounted = 0 := by omega
    exact (stillCounted_eq_false_iff _).mp (phase_false_of_phaseCount_eq_zero h0 hi)
  have hperm0 : phaseCount cfg.n s.phase holdsPermit = 0 := by omega
  refine ⟨hall, ?_, hperm0, ?_⟩
  · intro i hi
    rw [hterm i hi, hall i hi]
    simp [sentAlready]
  · intro s2 hstep
    cases hstep with
    | acquire i hi hph hsl =>
      rw [hall i hi] at hph
      exact BuildPhase.noConfusion hph
    | log i msg hi hph =>
      rw [hall i hi] at hph
      exact BuildPhase.noConfusion hph
    | send i hi hph =>
      rw [hall i hi] at hph
      exact BuildPhase.noConfusion hph
    | release i hi hph =>
      rw [hall i hi] at hph
      exact BuildPhase.noConfusion hph
    | wgDone i hi hph =>
      rw [hall i hi] at hph
      exact BuildPhase.noConfusion hph
    | drain hwg2 hdl hsl =>
      omega
    | close hwg2 hdK2 hno =>
      rw [hclosed] at hno
      exact Bool.noConfusion hno

/-- Witness for C8: a concrete one-service run driven to its closed
state; there the goroutine is done and the stream holds exactly one
terminal update for it. -/
theorem buildStream_one_terminal_per_service_then_close_witness :
    BuildReachable buildDemoCfg buildDemoClosed
    ∧ buildDemoClosed.phase 0 = BuildPhase.done
    ∧ termCount buildDemoClosed.stream 0 = 1 := by
  have h0 : BuildReachable buildDemoCfg (initBuildState buildDemoCfg) :=
    BuildReachable.init
  have h1 := h0.step (BuildStep.acquire _ 0 (by decide) rfl (by decide))
  have h2 := h1.step (BuildStep.send _ 0 (by decide) (by decide))
  have h3 := h2.step (BuildStep.release _ 0 (by decide) (by decide))
  have h4 := h3.step (BuildStep.wgDone _ 0 (by decide) (by decide))
  have h5 := h4.step (BuildStep.drain _ (by decide) (by decide) (by decide))
  have h6 : BuildReachable buildDemoCfg buildDemoClosed :=
    h5.step (BuildStep.close _ (by decide) (by decide) (by decide))
  have hmain := buildStream_one_terminal_per_service_then_close buildDemoCfg
    buildDemoClosed h6 rfl
  exact ⟨h6, hmain.1 0 (by decide), hmain.2.1 0 (by decide)⟩

/-- C9: in every reachable state of the `BuildServices` concurrency
skeleton — for every assignment of build outcomes, success or failure —
the number of goroutines currently running `BuildImage` is at most
`min(NumCPU, GOMAXPROCS)`, every building or not-yet-released goroutine
holds exactly one permit (token conservation), and the in-flight count
never exceeds the tokens in the permit channel. -/
theorem buildServices_concurrency_bound (cfg : BuildConfig) (s : BuildState)
    (hreach : BuildReachable cfg s) :
    phaseCount cfg.n s.phase isBuilding ≤ min cfg.numCPU cfg.gomaxprocs
    ∧ s.sem = phaseCount cfg.n s.phase holdsPermit + s.drained
    ∧ phaseCount cfg.n s.phase isBuilding ≤ s.sem := by
  obtain ⟨hsem, hle, -, -, -, -⟩ := buildInv_reachable hreach
  have hmono : phaseCount cfg.n s.phase isBuilding
      ≤ phaseCount cfg.n s.phase holdsPermit := by
    apply phaseCount_mono
    intro p hp
    cases p <;> simp [isBuilding, holdsPermit] at hp ⊢
  have hp2 : cfg.permits = min cfg.numCPU cfg.gomaxprocs := rfl
  exact ⟨by omega, hsem, by omega⟩

/-- Witness for C9: in the demo run's state with the permit acquired
and the build in flight, the in-flight count respects the bound. -/
theorem buildServices_concurrency_bound_witness :
    phaseCount buildDemoCfg.n buildDemoMid.phase isBuilding
      ≤ min buildDemoCfg.numCPU buildDemoCfg.gomaxprocs := by
  have h0 : BuildReachable buildDemoCfg (initBuildState buildDemoCfg) :=
    BuildReachable.init
  have h1 : BuildReachable buildDemoCfg buildDemoMid :=
    h0.step (BuildStep.acquire _ 0 (by decide) rfl (by decide))
  exact (buildServices_concurrency_bound buildDemoCfg buildDemoMid h1).1
